import Mathlib

/-!
Verification of the hyprevents event-dispatch engine and workspace-swap
tracker, shallowly embedded from the Python sources
(`hyprevents/__init__.py`, `dispatchers/workspaceswap.py`).

Conventions of the embedding:
* Python `dict`s become association lists `List (String × α)`; insertion
  order is list order (Python dicts preserve insertion order, value
  overwrite keeps the original position).
* Python object identity for handler instances becomes a `Nat` id; each
  `load_dispatcher` re-executes the plugin module and therefore builds a
  fresh handler object, modelled by a fresh id drawn from a counter.
* Exceptions become `Option`/`Bool` results (`none`/`false` = raised).
* The blocking socket is abstracted away: `get_next_event` is modelled on
  the already-framed line (the `recv` loop strips everything up to the
  first newline, so a delivered line never contains `'\n'`).
-/

/-! ## Part 1: stream reader (`EventHandler.get_next_event`) -/

/-- One parsed event record, as built by `HyprEvent(name, data)`. -/
structure HyprEvent where
  name : String
  data : String
deriving DecidableEq, Repr

/-- Whether position `i` of the line can serve as the split point of the
match of Python's `re.search(r"(.+)>>(.+)", line)`: at least one character
before it, the two characters `>>` at `i`, and at least one character
after them. -/
def matchAt (l : List Char) (i : Nat) : Bool :=
  decide (1 ≤ i) && decide (i + 2 < l.length) &&
    (l.getD i ' ' == '>') && (l.getD (i + 1) ' ' == '>')

/-- Scan downward for the largest split index below `n`.  Python's regex
`(.+)>>(.+)` is greedy in its first group, so the match that `re.search`
returns uses the largest possible split index; scanning from the top
models that backtracking order. -/
def splitIdxAux (l : List Char) : Nat → Option Nat
  | 0 => none
  | n + 1 => if matchAt l n then some n else splitIdxAux l n

/-- Split index chosen by `re.search(r"(.+)>>(.+)", line)`, if any. -/
def splitIdx (l : List Char) : Option Nat :=
  splitIdxAux l l.length

/-- Model of `EventHandler.get_next_event` applied to one framed line
(the bytes received before the terminating newline): run the regex; on no
match return `None`, otherwise build `HyprEvent(group1, group2)`. -/
def get_next_event (line : List Char) : Option HyprEvent :=
  match splitIdx line with
  | none => none
  | some i => some ⟨(line.take i).asString, (line.drop (i + 2)).asString⟩

/-- Whether the two-character token `>>` occurs at position `i`. -/
def hasSepAt (l : List Char) (i : Nat) : Bool :=
  decide (i + 1 < l.length) && (l.getD i ' ' == '>') && (l.getD (i + 1) ' ' == '>')

/-- Model of the body of `EventHandler.mainloop`: read each framed line in
arrival order, skip lines that parse to `None`, dispatch the rest.  The
result is the sequence of events handed to `dispatch_event`. -/
def mainloop_dispatches : List (List Char) → List HyprEvent
  | [] => []
  | l :: rest =>
    match get_next_event l with
    | none => mainloop_dispatches rest
    | some e => e :: mainloop_dispatches rest

lemma matchAt_false_of_ge (l : List Char) (j : Nat) (h : l.length ≤ j + 2) :
    matchAt l j = false := by
  simp [matchAt]
  intro _ h2
  omega

lemma splitIdxAux_eq_some (l : List Char) (i : Nat) :
    ∀ n, i < n → matchAt l i = true →
      (∀ j, j < n → i < j → matchAt l j = false) →
      splitIdxAux l n = some i := by
  intro n
  induction n with
  | zero => omega
  | succ m ih =>
    intro hin hmi hmax
    by_cases hcase : i = m
    · subst hcase
      simp [splitIdxAux, hmi]
    · have hlt : i < m := by omega
      have hm : matchAt l m = false := hmax m (Nat.lt_succ_self m) hlt
      simp [splitIdxAux, hm]
      exact ih hlt hmi (fun j hj hij => hmax j (Nat.lt_succ_of_lt hj) hij)

lemma splitIdxAux_eq_none (l : List Char) :
    (∀ j, matchAt l j = false) → ∀ n, splitIdxAux l n = none := by
  intro h n
  induction n with
  | zero => rfl
  | succ m ih => simp [splitIdxAux, h m, ih]

lemma matchAt_of_hasSepAt (l : List Char) (j : Nat) :
    matchAt l j = true → hasSepAt l j = true := by
  unfold matchAt hasSepAt
  simp only [Bool.and_eq_true, decide_eq_true_eq]
  rintro ⟨⟨⟨h1, h2⟩, h3⟩, h4⟩
  exact ⟨⟨by omega, h3⟩, h4⟩

lemma matchAt_bounds (l : List Char) (i : Nat) :
    matchAt l i = true → 1 ≤ i ∧ i + 2 < l.length := by
  unfold matchAt
  simp only [Bool.and_eq_true, decide_eq_true_eq]
  rintro ⟨⟨⟨h1, h2⟩, -⟩, -⟩
  exact ⟨h1, h2⟩

/-- Claim C1 (counterexample). On the line `a>>b>>c` the claim predicts the
record `(a, b>>c)` (split at the first `>>`), but the greedy regex
`(.+)>>(.+)` splits at the last usable `>>`; and on the line `x>>` — which
contains the token `>>` — the claim predicts a record, but the regex
requires a nonempty data group, so no event is produced at all. -/
theorem c1_counterexample :
    get_next_event ("a>>b>>c".toList) ≠ some ⟨"a", "b>>c"⟩ ∧
      get_next_event ("a>>b>>c".toList) = some ⟨"a>>b", "c"⟩ ∧
      get_next_event ("x>>".toList) = none := by
  decide

/-- Claim C1 (amended). For every framed line (newline-free by the `recv`
loop): if `i` is the LAST position carrying the token `>>` that has at
least one character before it and at least one character after it, then
`get_next_event` returns the event whose name is the text before that
occurrence and whose data is the text after it — so the NAME may itself
contain `>>`; and if no position carries such a flanked occurrence (in
particular on lines like `x>>` whose every `>>` sits at the boundary),
`get_next_event` yields no event. -/
theorem c1_get_next_event_greedy_split (line : List Char) :
    (∀ i, matchAt line i = true →
      (∀ j, j < line.length → i < j → matchAt line j = false) →
      get_next_event line =
        some ⟨(line.take i).asString, (line.drop (i + 2)).asString⟩) ∧
    ((∀ i, i < line.length → matchAt line i = false) →
      get_next_event line = none) := by
  constructor
  · intro i hm hmax
    have hi : i < line.length := by
      have := (matchAt_bounds line i hm).2
      omega
    have hidx : splitIdx line = some i :=
      splitIdxAux_eq_some line i line.length hi hm hmax
    simp [get_next_event, hidx]
  · intro hall
    have hall' : ∀ j, matchAt line j = false := by
      intro j
      by_cases hj : j < line.length
      · exact hall j hj
      · exact matchAt_false_of_ge line j (by omega)
    have hn : splitIdx line = none := splitIdxAux_eq_none line hall' line.length
    simp [get_next_event, hn]

/-- Witness for the amended claim C1: the line `ab>>cd` splits at its
flanked occurrence, and the line `x>>` (no flanked occurrence) yields
no event. -/
theorem c1_get_next_event_greedy_split_witness :
    get_next_event ("ab>>cd".toList) = some ⟨"ab", "cd"⟩ ∧
      get_next_event ("x>>".toList) = none :=
  ⟨(c1_get_next_event_greedy_split ("ab>>cd".toList)).1 2 (by decide) (by decide),
   (c1_get_next_event_greedy_split ("x>>".toList)).2 (by decide)⟩

/-- Claim C9. A framed line in which the token `>>` occurs nowhere yields
no event record (`get_next_event` returns `None`, no error), and the main
loop skips such a null frame: the events dispatched from `line :: rest`
are exactly those dispatched from `rest`, so the loop continues reading. -/
theorem c9_no_separator_skipped (line : List Char)
    (hnosep : ∀ i, i < line.length → hasSepAt line i = false) :
    get_next_event line = none ∧
      ∀ rest, mainloop_dispatches (line :: rest) = mainloop_dispatches rest := by
  have hall : ∀ j, matchAt line j = false := by
    intro j
    cases h : matchAt line j with
    | false => rfl
    | true =>
      have hsep := matchAt_of_hasSepAt line j h
      have hlt := (matchAt_bounds line j h).2
      have hfalse := hnosep j (by omega)
      rw [hfalse] at hsep
      exact absurd hsep (by simp)
  have hn : splitIdx line = none := splitIdxAux_eq_none line hall line.length
  have hev : get_next_event line = none := by simp [get_next_event, hn]
  exact ⟨hev, fun rest => by simp [mainloop_dispatches, hev]⟩

/-- Witness for claim C9 at the concrete separator-free line `hello`. -/
theorem c9_no_separator_skipped_witness :
    get_next_event ("hello".toList) = none ∧
      mainloop_dispatches ["hello".toList, "a>>b".toList] =
        mainloop_dispatches ["a>>b".toList] :=
  ⟨(c9_no_separator_skipped ("hello".toList) (by decide)).1,
   (c9_no_separator_skipped ("hello".toList) (by decide)).2 ["a>>b".toList]⟩

/-! ## Part 2: dispatch engine (`EventHandler` registries and lifecycle)

Python dicts are embedded as insertion-ordered association lists with
unique keys; handler instances are identified by a `Nat` drawn from a
counter, because `load_dispatcher` re-executes the plugin module and thus
constructs a fresh handler object on every load. -/

/-- Registry state of `EventHandler`: `dispatchers` maps an event-type
name to the ordered list of subscribed handler instances, `handlers` maps
a dispatcher name to its current live instance, and `nextId` is the next
fresh instance identity. -/
structure EngineState where
  dispatchers : List (String × List Nat)
  handlers : List (String × Nat)
  nextId : Nat
deriving DecidableEq, Repr

/-- Python `d[k]` as an option (first entry with the key). -/
def dictLookup {α : Type} (d : List (String × α)) (k : String) : Option α :=
  (d.find? (fun p => p.1 == k)).map (fun p => p.2)

/-- Python `k in d`. -/
def dictHas {α : Type} (d : List (String × α)) (k : String) : Bool :=
  (d.find? (fun p => p.1 == k)).isSome

/-- Overwrite the value stored at key `k`, keeping its position. -/
def dictSet {α : Type} (d : List (String × α)) (k : String) (v : α) :
    List (String × α) :=
  d.map (fun p => if p.1 == k then (p.1, v) else p)

/-- Python `d[k] = v`: overwrite in place if present, else append. -/
def dictAssign {α : Type} (d : List (String × α)) (k : String) (v : α) :
    List (String × α) :=
  if dictHas d k then dictSet d k v else d ++ [(k, v)]

/-- Python `del d[k]`. -/
def dictErase {α : Type} (d : List (String × α)) (k : String) :
    List (String × α) :=
  d.filter (fun p => !(p.1 == k))

/-- One step of the subscription loop in `load_dispatcher`: append the
handler to the event's list if the event type is already known, else
create a fresh singleton list for it. -/
def subscribeHandler (d : List (String × List Nat)) (ev : String)
    (h : Nat) : List (String × List Nat) :=
  match dictLookup d ev with
  | some l => dictSet d ev (l ++ [h])
  | none => d ++ [(ev, [h])]

/-- The whole subscription loop of `load_dispatcher`. -/
def subscribeAll (subs : List String) (h : Nat) (st : EngineState) :
    EngineState :=
  subs.foldl (fun st ev => { st with dispatchers := subscribeHandler st.dispatchers ev h }) st

/-- Model of `EventHandler.load_dispatcher`: instantiate a fresh handler,
register it in `handlers`, then look up the configuration section — a
missing section raises (`false`), leaving the `handlers` insertion in
place; otherwise subscribe the instance to every declared event type.
`cfg` maps a dispatcher name to its `subscribes` list. -/
def load_dispatcher (cfg : List (String × List String)) (dispname : String)
    (s : EngineState) : EngineState × Bool :=
  let h := s.nextId
  let s1 : EngineState :=
    { s with handlers := dictAssign s.handlers dispname h, nextId := h + 1 }
  match dictLookup cfg dispname with
  | none => (s1, false)
  | some subs => (subscribeAll subs h s1, true)

/-- Model of `EventHandler.load_all_dispatchers`: best-effort bulk
loading; a failed load is caught and the loop continues. -/
def load_all_dispatchers (cfg : List (String × List String))
    (loaded : List String) (s : EngineState) : EngineState :=
  loaded.foldl (fun st n => (load_dispatcher cfg n st).1) s

/-- Python `self.dispatchers[event].remove(dispatcher)`: raises on a
missing event key or on an absent instance, else deletes the first
occurrence. -/
def removeFromList (st : EngineState) (d : Nat) (ev : String) :
    Option EngineState :=
  match dictLookup st.dispatchers ev with
  | none => none
  | some l =>
    if d ∈ l then
      some { st with dispatchers := dictSet st.dispatchers ev (l.erase d) }
    else none

/-- The removal loop of `unload_dispatcher`, aborting on the first raised
exception. -/
def removeAll (subs : List String) (d : Nat) (st : EngineState) :
    Option EngineState :=
  match subs with
  | [] => some st
  | ev :: rest =>
    match removeFromList st d ev with
    | none => none
    | some st' => removeAll rest d st'

/-- Model of `EventHandler.unload_dispatcher`: read the configured
subscription set and the live instance, remove the instance from each
subscribed event list, then delete the name from the handler registry. -/
def unload_dispatcher (cfg : List (String × List String)) (dispname : String)
    (s : EngineState) : Option EngineState :=
  match dictLookup cfg dispname with
  | none => none
  | some subs =>
    match dictLookup s.handlers dispname with
    | none => none
    | some d =>
      (removeAll subs d s).map
        (fun st => { st with handlers := dictErase st.handlers dispname })

/-- Invoke the handlers of one subscription list in order; `beh h e`
tells whether instance `h` handles `e` without raising.  Returns the
instances actually invoked and whether the cycle completed. -/
def runHandlers (beh : Nat → HyprEvent → Bool) (e : HyprEvent) :
    List Nat → List Nat × Bool
  | [] => ([], true)
  | h :: rest =>
    if beh h e then
      let r := runHandlers beh e rest
      (h :: r.1, r.2)
    else ([h], false)

/-- Model of `EventHandler.dispatch_event`: look up the event's name; if
absent do nothing, else invoke each subscribed handler in registration
order, a raising handler aborting the rest. -/
def dispatch_event (beh : Nat → HyprEvent → Bool)
    (disp : List (String × List Nat)) (e : HyprEvent) :
    List Nat × Bool :=
  match dictLookup disp e.name with
  | none => ([], true)
  | some l => runHandlers beh e l

lemma dictLookup_cons {α : Type} (p : String × α) (d : List (String × α))
    (k : String) :
    dictLookup (p :: d) k = if p.1 == k then some p.2 else dictLookup d k := by
  cases hb : p.1 == k <;> simp [dictLookup, List.find?_cons, hb]

lemma dictHas_cons {α : Type} (p : String × α) (d : List (String × α))
    (k : String) :
    dictHas (p :: d) k = (p.1 == k || dictHas d k) := by
  cases hb : p.1 == k <;> simp [dictHas, List.find?_cons, hb]

lemma dictHas_false_lookup {α : Type} {d : List (String × α)} {k : String}
    (h : dictHas d k = false) : dictLookup d k = none := by
  unfold dictHas at h
  unfold dictLookup
  cases hf : d.find? (fun p => p.1 == k) with
  | none => rfl
  | some p => rw [hf] at h; simp at h

lemma dictLookup_mem {α : Type} {d : List (String × α)} {k : String} {v : α}
    (h : dictLookup d k = some v) : (k, v) ∈ d := by
  unfold dictLookup at h
  rcases Option.map_eq_some'.mp h with ⟨p, hf, hv⟩
  have h1 := List.find?_some hf
  have h2 := List.mem_of_find?_eq_some hf
  have hk : p.1 = k := by simpa using h1
  obtain ⟨p1, p2⟩ := p
  simp only at hk hv
  subst hk hv
  exact h2

lemma dictSet_cons {α : Type} (p : String × α) (d : List (String × α))
    (k : String) (v : α) :
    dictSet (p :: d) k v =
      (if p.1 == k then (p.1, v) else p) :: dictSet d k v := rfl

lemma dictLookup_dictSet_self {α : Type} {d : List (String × α)} {k : String}
    (v : α) (hhas : dictHas d k = true) :
    dictLookup (dictSet d k v) k = some v := by
  induction d with
  | nil => simp [dictHas, List.find?] at hhas
  | cons p rest ih =>
    rw [dictHas_cons] at hhas
    rw [dictSet_cons]
    cases hb : p.1 == k with
    | true =>
      have hk : p.1 = k := by simpa using hb
      simp [dictLookup_cons, hb, hk]
    | false =>
      rw [hb] at hhas
      simp only [Bool.false_or] at hhas
      have hk : ¬ p.1 = k := by simpa using hb
      simp only [hb, Bool.false_eq_true, if_false]
      rw [dictLookup_cons]
      simp only [hb, Bool.false_eq_true, if_false]
      exact ih hhas

lemma dictLookup_dictSet_ne {α : Type} {d : List (String × α)} {k k' : String}
    (v : α) (hne : k' ≠ k) :
    dictLookup (dictSet d k v) k' = dictLookup d k' := by
  induction d with
  | nil => rfl
  | cons p rest ih =>
    rw [dictSet_cons, dictLookup_cons p rest k']
    cases hb : p.1 == k with
    | true =>
      have hk : p.1 = k := by simpa using hb
      have hb' : (p.1 == k') = false := by
        simp [hk]
        exact fun h => hne h.symm
      simp only [hb, if_true]
      rw [dictLookup_cons]
      simp only [hb', Bool.false_eq_true, if_false, ih]
    | false =>
      simp only [hb, Bool.false_eq_true, if_false]
      rw [dictLookup_cons]
      simp only [ih]

lemma dictLookup_append_single_self {α : Type} {d : List (String × α)}
    {k : String} (v : α) (h : dictLookup d k = none) :
    dictLookup (d ++ [(k, v)]) k = some v := by
  induction d with
  | nil => simp [dictLookup_cons]
  | cons p rest ih =>
    rw [dictLookup_cons] at h
    cases hb : p.1 == k with
    | true => rw [hb] at h; simp at h
    | false =>
      rw [hb] at h
      simp only [Bool.false_eq_true, if_false] at h
      simpa [dictLookup_cons, hb] using ih h

lemma dictLookup_append_single_ne {α : Type} {d : List (String × α)}
    {k k' : String} (v : α) (hne : k' ≠ k) :
    dictLookup (d ++ [(k, v)]) k' = dictLookup d k' := by
  induction d with
  | nil =>
    have hb : (k == k') = false := by
      simp
      exact fun h => hne h.symm
    simp [dictLookup, List.find?, hb]
  | cons p rest ih =>
    cases hb : p.1 == k' <;> simp [dictLookup_cons, hb, ih]

lemma dictLookup_assign_self {α : Type} (d : List (String × α)) (k : String)
    (v : α) : dictLookup (dictAssign d k v) k = some v := by
  unfold dictAssign
  cases hh : dictHas d k with
  | true => simp [dictLookup_dictSet_self v hh]
  | false => simp [dictLookup_append_single_self v (dictHas_false_lookup hh)]

lemma dictLookup_assign_ne {α : Type} (d : List (String × α)) {k k' : String}
    (v : α) (hne : k' ≠ k) :
    dictLookup (dictAssign d k v) k' = dictLookup d k' := by
  unfold dictAssign
  cases hh : dictHas d k with
  | true => simp [dictLookup_dictSet_ne v hne]
  | false => simp [dictLookup_append_single_ne v hne]

lemma dictLookup_erase_self {α : Type} (d : List (String × α)) (k : String) :
    dictLookup (dictErase d k) k = none := by
  unfold dictLookup
  rw [Option.map_eq_none']
  rw [List.find?_eq_none]
  intro p hp
  have := List.of_mem_filter hp
  simpa using this

lemma dictLookup_nodup_of_mem {α : Type} {d : List (String × α)} {k : String}
    {v : α} (hnd : (d.map Prod.fst).Nodup) (hmem : (k, v) ∈ d) :
    dictLookup d k = some v := by
  induction d with
  | nil => simp at hmem
  | cons p rest ih =>
    simp only [List.map_cons, List.nodup_cons] at hnd
    rcases List.mem_cons.mp hmem with heq | htl
    · rw [← heq]
      simp [dictLookup_cons]
    · have hk : k ∈ rest.map Prod.fst :=
        List.mem_map.mpr ⟨(k, v), htl, rfl⟩
      have hne : (p.1 == k) = false := by
        simp
        intro h
        exact hnd.1 (h ▸ hk)
      rw [dictLookup_cons, hne]
      simp only [Bool.false_eq_true, if_false]
      exact ih hnd.2 htl

lemma runHandlers_all_true {beh : Nat → HyprEvent → Bool} {e : HyprEvent}
    {l : List Nat} (h : ∀ x ∈ l, beh x e = true) :
    runHandlers beh e l = (l, true) := by
  induction l with
  | nil => rfl
  | cons a rest ih =>
    have ha := h a (List.mem_cons_self a rest)
    simp [runHandlers, ha, ih (fun x hx => h x (List.mem_cons_of_mem a hx))]

lemma runHandlers_fault {beh : Nat → HyprEvent → Bool} {e : HyprEvent} :
    ∀ (l1 : List Nat) (h : Nat) (l2 : List Nat),
      (∀ x ∈ l1, beh x e = true) → beh h e = false →
      runHandlers beh e (l1 ++ h :: l2) = (l1 ++ [h], false) := by
  intro l1
  induction l1 with
  | nil => intro h l2 _ hf; simp [runHandlers, hf]
  | cons a rest ih =>
    intro h l2 hall hf
    have ha := hall a (List.mem_cons_self a rest)
    have ihh := ih h l2 (fun x hx => hall x (List.mem_cons_of_mem a hx)) hf
    simp only [List.cons_append, runHandlers, ha, if_true, List.append_eq, ihh]

lemma runHandlers_subset {beh : Nat → HyprEvent → Bool} {e : HyprEvent} :
    ∀ (l : List Nat) (x : Nat),
      x ∈ (runHandlers beh e l).1 → x ∈ l := by
  intro l
  induction l with
  | nil => intro x hx; simp [runHandlers] at hx
  | cons a rest ih =>
    intro x hx
    cases hb : beh a e with
    | true =>
      simp only [runHandlers, hb, if_true, List.mem_cons] at hx
      rcases hx with hx | hx
      · exact hx ▸ List.mem_cons_self a rest
      · exact List.mem_cons_of_mem a (ih x hx)
    | false =>
      simp only [runHandlers, hb, Bool.false_eq_true, if_false,
        List.mem_singleton] at hx
      exact hx ▸ List.mem_cons_self a rest

/-- Claim C5. `dispatch_event` with an absent event name is a no-op; with
a registered list it invokes every subscribed handler in registration
order when none faults, and when some handler faults it invokes exactly
the handlers up to and including the faulting one — no subsequent handler
of that event's list runs. -/
theorem c5_dispatch_order (beh : Nat → HyprEvent → Bool)
    (disp : List (String × List Nat)) (e : HyprEvent) :
    (dictLookup disp e.name = none → dispatch_event beh disp e = ([], true)) ∧
    (∀ l, dictLookup disp e.name = some l →
      ((∀ x ∈ l, beh x e = true) → dispatch_event beh disp e = (l, true)) ∧
      (∀ l1 h l2, l = l1 ++ h :: l2 → (∀ x ∈ l1, beh x e = true) →
        beh h e = false → dispatch_event beh disp e = (l1 ++ [h], false))) := by
  constructor
  · intro hnone
    simp [dispatch_event, hnone]
  · intro l hl
    constructor
    · intro hall
      simp [dispatch_event, hl, runHandlers_all_true hall]
    · intro l1 h l2 hsplit hall hf
      simp [dispatch_event, hl, hsplit, runHandlers_fault l1 h l2 hall hf]

/-- Witness for claim C5: handlers 0, 1, 2 subscribed to `X` in that
order; handler 1 faults, so exactly 0 and 1 are invoked and 2 is not. -/
theorem c5_dispatch_order_witness :
    dispatch_event (fun h _ => h == 0) [("X", [0, 1, 2])] ⟨"X", ""⟩ =
      ([0, 1], false) :=
  ((c5_dispatch_order (fun h _ => h == 0) [("X", [0, 1, 2])] ⟨"X", ""⟩).2
    [0, 1, 2] (by decide)).2 [0] 1 [2] rfl (by decide) (by decide)

/-- Instance identities handed out so far are below the freshness
counter, both in subscription lists and in the handler registry. -/
def IdsOK (s : EngineState) : Prop :=
  (∀ p ∈ s.dispatchers, ∀ x ∈ p.2, x < s.nextId) ∧
    (∀ p ∈ s.handlers, p.2 < s.nextId)

instance (s : EngineState) : Decidable (IdsOK s) := by
  unfold IdsOK; exact inferInstance

/-- Claim C10. When `load_dispatcher` fails because the configuration
section is absent, the fresh handler instance has already been inserted
into the handler registry and remains there: the failed call reports the
new instance under the dispatcher's name, a binding the registry did not
hold before the call — the error path is not atomic on the registry. -/
theorem c10_failed_load_keeps_handler_entry (cfg : List (String × List String))
    (dispname : String) (s : EngineState)
    (hmiss : dictLookup cfg dispname = none) (hids : IdsOK s) :
    (load_dispatcher cfg dispname s).2 = false ∧
      dictLookup (load_dispatcher cfg dispname s).1.handlers dispname =
        some s.nextId ∧
      dictLookup s.handlers dispname ≠ some s.nextId := by
  have hload : load_dispatcher cfg dispname s =
      ({ s with
          handlers := dictAssign s.handlers dispname s.nextId,
          nextId := s.nextId + 1 }, false) := by
    simp [load_dispatcher, hmiss]
  refine ⟨by rw [hload], ?_, ?_⟩
  · rw [hload]
    exact dictLookup_assign_self s.handlers dispname s.nextId
  · intro hcontra
    have hmem := dictLookup_mem hcontra
    have hlt := hids.2 _ hmem
    exact absurd hlt (by omega)

/-- Witness for claim C10: loading `bad` against a configuration with no
`bad` section fails yet registers instance 0 under `bad`. -/
theorem c10_failed_load_keeps_handler_entry_witness :
    (load_dispatcher [("good", ["x"])] "bad" ⟨[], [], 0⟩).2 = false ∧
      dictLookup (load_dispatcher [("good", ["x"])] "bad"
        ⟨[], [], 0⟩).1.handlers "bad" = some 0 ∧
      dictLookup (⟨[], [], 0⟩ : EngineState).handlers "bad" ≠ some 0 :=
  c10_failed_load_keeps_handler_entry [("good", ["x"])] "bad" ⟨[], [], 0⟩
    (by decide) (by decide)

lemma subscribeHandler_forall {Q : Nat → Prop}
    {d : List (String × List Nat)} {ev : String} {h : Nat}
    (hall : ∀ p ∈ d, ∀ x ∈ p.2, Q x) (hQ : Q h) :
    ∀ p ∈ subscribeHandler d ev h, ∀ x ∈ p.2, Q x := by
  intro p hp x hx
  unfold subscribeHandler at hp
  cases hl : dictLookup d ev with
  | none =>
    rw [hl] at hp
    rcases List.mem_append.mp hp with hp | hp
    · exact hall p hp x hx
    · simp only [List.mem_singleton] at hp
      subst hp
      simp only [List.mem_singleton] at hx
      exact hx ▸ hQ
  | some l =>
    rw [hl] at hp
    rcases List.mem_map.mp hp with ⟨q, hq, hpq⟩
    by_cases hqe : (q.1 == ev) = true
    · rw [if_pos hqe] at hpq
      rw [← hpq] at hx
      simp only at hx
      rcases List.mem_append.mp hx with hx | hx
      · exact hall _ (dictLookup_mem hl) x hx
      · simp only [List.mem_singleton] at hx
        exact hx ▸ hQ
    · rw [if_neg hqe] at hpq
      exact hall p (hpq ▸ hq) x hx

lemma subscribeAll_dispatchers_forall {Q : Nat → Prop}
    (subs : List String) (h : Nat) :
    ∀ st : EngineState, (∀ p ∈ st.dispatchers, ∀ x ∈ p.2, Q x) → Q h →
      ∀ p ∈ (subscribeAll subs h st).dispatchers, ∀ x ∈ p.2, Q x := by
  induction subs with
  | nil => intro st hall _; exact hall
  | cons ev rest ih =>
    intro st hall hQ
    exact ih { st with dispatchers := subscribeHandler st.dispatchers ev h }
      (subscribeHandler_forall hall hQ) hQ

lemma subscribeAll_handlers_nextId (subs : List String) (h : Nat) :
    ∀ st : EngineState, (subscribeAll subs h st).handlers = st.handlers ∧
      (subscribeAll subs h st).nextId = st.nextId := by
  induction subs with
  | nil => intro st; exact ⟨rfl, rfl⟩
  | cons ev rest ih =>
    intro st
    exact ih { st with dispatchers := subscribeHandler st.dispatchers ev h }

lemma mem_dictAssign {α : Type} {d : List (String × α)} {k : String} {v : α}
    {p : String × α} (hp : p ∈ dictAssign d k v) : p ∈ d ∨ p.2 = v := by
  unfold dictAssign at hp
  by_cases hh : dictHas d k = true
  · rw [if_pos hh] at hp
    rcases List.mem_map.mp hp with ⟨q, hq, hpq⟩
    by_cases hqk : (q.1 == k) = true
    · right; rw [← hpq, if_pos hqk]
    · left; rw [← hpq, if_neg hqk]; exact hq
  · rw [if_neg hh] at hp
    rcases List.mem_append.mp hp with hp | hp
    · exact Or.inl hp
    · right
      simp only [List.mem_singleton] at hp
      rw [hp]

/-- The state after the registry insertion of `load_dispatcher`, before
the subscription loop. -/
def loadStage1 (dispname : String) (s : EngineState) : EngineState :=
  { s with
      handlers := dictAssign s.handlers dispname s.nextId,
      nextId := s.nextId + 1 }

lemma load_dispatcher_eq_none {cfg : List (String × List String)}
    {n : String} (s : EngineState) (hc : dictLookup cfg n = none) :
    load_dispatcher cfg n s = (loadStage1 n s, false) := by
  simp [load_dispatcher, loadStage1, hc]

lemma load_dispatcher_eq_some {cfg : List (String × List String)}
    {n : String} {subs : List String} (s : EngineState)
    (hc : dictLookup cfg n = some subs) :
    load_dispatcher cfg n s = (subscribeAll subs s.nextId (loadStage1 n s), true) := by
  simp [load_dispatcher, loadStage1, hc]

lemma load_dispatcher_IdsOK (cfg : List (String × List String)) (n : String)
    (s : EngineState) (hids : IdsOK s) :
    IdsOK (load_dispatcher cfg n s).1 ∧
      (load_dispatcher cfg n s).1.nextId = s.nextId + 1 := by
  have hhandlers : ∀ p ∈ dictAssign s.handlers n s.nextId,
      p.2 < s.nextId + 1 := by
    intro p hp
    rcases mem_dictAssign hp with hp | hp
    · have := hids.2 p hp; omega
    · omega
  cases hc : dictLookup cfg n with
  | none =>
    rw [load_dispatcher_eq_none s hc]
    refine ⟨⟨?_, hhandlers⟩, rfl⟩
    intro p hp x hx
    have := hids.1 p hp x hx
    show x < s.nextId + 1
    omega
  | some subs =>
    rw [load_dispatcher_eq_some s hc]
    have hsub := subscribeAll_handlers_nextId subs s.nextId (loadStage1 n s)
    refine ⟨⟨?_, ?_⟩, hsub.2⟩
    · intro p hp x hx
      rw [hsub.2]
      show x < s.nextId + 1
      refine @subscribeAll_dispatchers_forall (fun y => y < s.nextId + 1) subs
        s.nextId (loadStage1 n s) ?_ ?_ p hp x hx
      · intro q hq y hy
        have := hids.1 q hq y hy
        omega
      · omega
    · intro p hp
      rw [hsub.1] at hp
      rw [hsub.2]
      exact hhandlers p hp

lemma load_dispatcher_not_subscribed (cfg : List (String × List String))
    (n : String) {s : EngineState} {x : Nat} (hx : x ≠ s.nextId)
    (hnot : ∀ p ∈ s.dispatchers, x ∉ p.2) :
    ∀ p ∈ (load_dispatcher cfg n s).1.dispatchers, x ∉ p.2 := by
  cases hc : dictLookup cfg n with
  | none =>
    rw [load_dispatcher_eq_none s hc]
    exact hnot
  | some subs =>
    rw [load_dispatcher_eq_some s hc]
    intro p hp hmem
    have hne := @subscribeAll_dispatchers_forall (fun y => y ≠ x) subs s.nextId
      (loadStage1 n s)
      (fun q hq y hy hxy => hnot q hq (hxy ▸ hy)) (fun hxy => hx hxy.symm)
      p hp x hmem
    exact hne rfl

lemma load_all_not_subscribed (cfg : List (String × List String))
    (names : List String) :
    ∀ (s : EngineState) (x : Nat), IdsOK s → x < s.nextId →
      (∀ p ∈ s.dispatchers, x ∉ p.2) →
      IdsOK (load_all_dispatchers cfg names s) ∧
        x < (load_all_dispatchers cfg names s).nextId ∧
        ∀ p ∈ (load_all_dispatchers cfg names s).dispatchers, x ∉ p.2 := by
  induction names with
  | nil => intro s x h1 h2 h3; exact ⟨h1, h2, h3⟩
  | cons n rest ih =>
    intro s x h1 h2 h3
    have hstep := load_dispatcher_IdsOK cfg n s h1
    have hns := load_dispatcher_not_subscribed cfg n (by omega) h3
    exact ih (load_dispatcher cfg n s).1 x hstep.1 (by omega) hns

/-- Claim C8. Bulk loading is best-effort: when a name in the list has no
configuration section, its `load_dispatcher` call fails (the raised
`Exception` is caught by `load_all_dispatchers`), no subscription-list
entry is created for the failed handler's instance — not even by the
remaining loads, which all still proceed. -/
theorem c8_bulk_load_best_effort (cfg : List (String × List String))
    (bad : String) (s : EngineState)
    (hmiss : dictLookup cfg bad = none) (hids : IdsOK s) :
    load_dispatcher cfg bad s = (loadStage1 bad s, false) ∧
      (∀ rest, load_all_dispatchers cfg (bad :: rest) s =
        load_all_dispatchers cfg rest (loadStage1 bad s)) ∧
      (∀ rest, ∀ p ∈ (load_all_dispatchers cfg (bad :: rest) s).dispatchers,
        s.nextId ∉ p.2) := by
  have h1 := load_dispatcher_eq_none s hmiss
  have heq : ∀ rest, load_all_dispatchers cfg (bad :: rest) s =
      load_all_dispatchers cfg rest (loadStage1 bad s) := by
    intro rest
    show load_all_dispatchers cfg rest (load_dispatcher cfg bad s).1 = _
    rw [h1]
  refine ⟨h1, heq, ?_⟩
  intro rest p hp hmem
  have hids1 : IdsOK (loadStage1 bad s) := by
    have h2 := (load_dispatcher_IdsOK cfg bad s hids).1
    rwa [h1] at h2
  have hnot1 : ∀ q ∈ (loadStage1 bad s).dispatchers, s.nextId ∉ q.2 := by
    intro q hq hmem2
    have := hids.1 q hq s.nextId hmem2
    omega
  have hfinal := load_all_not_subscribed cfg rest (loadStage1 bad s) s.nextId
    hids1 (by show s.nextId < s.nextId + 1; omega) hnot1
  rw [heq rest] at hp
  exact hfinal.2.2 p hp hmem

/-- Witness for claim C8: loading `bad` (no section) then `good` leaves
`bad`'s instance 0 out of every subscription list while `good` (instance
1) is subscribed to `x`. -/
theorem c8_bulk_load_best_effort_witness :
    load_dispatcher [("good", ["x"])] "bad" ⟨[], [], 0⟩ =
      (⟨[], [("bad", 0)], 1⟩, false) ∧
      (∀ p ∈ (load_all_dispatchers [("good", ["x"])] ["bad", "good"]
        ⟨[], [], 0⟩).dispatchers, (0 : Nat) ∉ p.2) :=
  ⟨(c8_bulk_load_best_effort [("good", ["x"])] "bad" ⟨[], [], 0⟩
      (by decide) (by decide)).1,
   (c8_bulk_load_best_effort [("good", ["x"])] "bad" ⟨[], [], 0⟩
      (by decide) (by decide)).2.2 ["good"]⟩

/-- Registry states reachable from the empty engine by `load_dispatcher`
calls alone, including failed loads and repeated loads of the same name
(the documented double-registration on reload without unload). -/
inductive ReachableLoad (cfg : List (String × List String)) : EngineState → Prop
  | init : ReachableLoad cfg ⟨[], [], 0⟩
  | load (n : String) {s : EngineState} (h : ReachableLoad cfg s) :
      ReachableLoad cfg (load_dispatcher cfg n s).1

/-- Number of occurrences of instance `x` in the subscription list of
event type `ev`. -/
def evCount (d : List (String × List Nat)) (ev : String) (x : Nat) : Nat :=
  ((dictLookup d ev).getD []).count x

/-- Structural invariant of load-reachable registries: identities are
bounded by the counter, event keys are unique, and the current instance
of a configured dispatcher occurs in each event list exactly as often as
that event occurs in its subscription list. -/
def CountInv (cfg : List (String × List String)) (s : EngineState) : Prop :=
  IdsOK s ∧ (s.dispatchers.map Prod.fst).Nodup ∧
    ∀ dispname d, dictLookup s.handlers dispname = some d →
      ∀ subs, dictLookup cfg dispname = some subs →
        ∀ ev, evCount s.dispatchers ev d = subs.count ev

lemma dictSet_keys {α : Type} (d : List (String × α)) (k : String) (v : α) :
    (dictSet d k v).map Prod.fst = d.map Prod.fst := by
  unfold dictSet
  rw [List.map_map]
  apply List.map_congr_left
  intro p _
  by_cases hp : p.1 = k
  · simp [hp]
  · simp [hp]

lemma dictLookup_none_not_key {α : Type} {d : List (String × α)} {k : String}
    (h : dictLookup d k = none) : k ∉ d.map Prod.fst := by
  intro hmem
  rcases List.mem_map.mp hmem with ⟨p, hp, hpk⟩
  unfold dictLookup at h
  rw [Option.map_eq_none'] at h
  rw [List.find?_eq_none] at h
  exact h p hp (by simp [hpk])

lemma subscribeHandler_keys_nodup {d : List (String × List Nat)} {ev : String}
    {h : Nat} (hnd : (d.map Prod.fst).Nodup) :
    ((subscribeHandler d ev h).map Prod.fst).Nodup := by
  unfold subscribeHandler
  cases hl : dictLookup d ev with
  | some l => rw [dictSet_keys]; exact hnd
  | none =>
    rw [List.map_append]
    rw [List.nodup_append]
    refine ⟨hnd, List.nodup_singleton ev, ?_⟩
    intro a ha hb
    simp only [List.map_cons, List.map_nil, List.mem_singleton] at hb
    exact dictLookup_none_not_key hl (hb ▸ ha)

lemma evCount_subscribeHandler (d : List (String × List Nat)) (ev0 : String)
    (h : Nat) (ev : String) (x : Nat) :
    evCount (subscribeHandler d ev0 h) ev x =
      evCount d ev x + (if ev = ev0 then (if x = h then 1 else 0) else 0) := by
  unfold subscribeHandler
  cases hl : dictLookup d ev0 with
  | some l =>
    have hhas : dictHas d ev0 = true := by
      unfold dictLookup at hl
      unfold dictHas
      rcases Option.map_eq_some'.mp hl with ⟨p, hf, -⟩
      simp [hf]
    by_cases he : ev = ev0
    · subst he
      unfold evCount
      rw [dictLookup_dictSet_self _ hhas, hl]
      simp [List.count_append, List.count_cons, List.count_nil]
      by_cases hx : x = h
      · simp [hx]
      · simp [hx, Ne.symm hx]
    · unfold evCount
      rw [dictLookup_dictSet_ne _ he]
      simp [he]
  | none =>
    by_cases he : ev = ev0
    · subst he
      unfold evCount
      rw [dictLookup_append_single_self _ hl, hl]
      simp [List.count_cons, List.count_nil]
      by_cases hx : x = h
      · simp [hx]
      · simp [hx, Ne.symm hx]
    · unfold evCount
      rw [dictLookup_append_single_ne _ he]
      simp [he]

lemma evCount_subscribeAll (subs : List String) (h : Nat) :
    ∀ (st : EngineState) (ev : String) (x : Nat),
      evCount (subscribeAll subs h st).dispatchers ev x =
        evCount st.dispatchers ev x + (if x = h then subs.count ev else 0) := by
  induction subs with
  | nil =>
    intro st ev x
    simp [subscribeAll, List.count_nil]
  | cons ev0 rest ih =>
    intro st ev x
    have hstep : subscribeAll (ev0 :: rest) h st =
        subscribeAll rest h
          { st with dispatchers := subscribeHandler st.dispatchers ev0 h } := rfl
    rw [hstep, ih]
    simp only
    rw [evCount_subscribeHandler]
    rw [List.count_cons]
    by_cases hx : x = h <;> by_cases he : ev = ev0
    · subst he
      simp [hx]
      omega
    · have hne : (ev == ev0) = false := by simpa using he
      simp [hx, he, hne]
      exact fun hc => he hc.symm
    · subst he
      simp [hx]
    · simp [hx, he]

lemma subscribeAll_keys_nodup (subs : List String) (h : Nat) :
    ∀ st : EngineState, (st.dispatchers.map Prod.fst).Nodup →
      ((subscribeAll subs h st).dispatchers.map Prod.fst).Nodup := by
  induction subs with
  | nil => intro st hnd; exact hnd
  | cons ev0 rest ih =>
    intro st hnd
    exact ih { st with dispatchers := subscribeHandler st.dispatchers ev0 h }
      (subscribeHandler_keys_nodup hnd)

lemma evCount_zero_of_IdsOK {s : EngineState} (hids : IdsOK s) (ev : String) :
    evCount s.dispatchers ev s.nextId = 0 := by
  unfold evCount
  cases hl : dictLookup s.dispatchers ev with
  | none => simp [List.count_nil]
  | some l =>
    have hmem := dictLookup_mem hl
    rw [List.count_eq_zero]
    intro hin
    have := hids.1 _ hmem s.nextId hin
    omega

lemma CountInv_load (cfg : List (String × List String)) (n : String)
    (s : EngineState) (hinv : CountInv cfg s) :
    CountInv cfg (load_dispatcher cfg n s).1 := by
  obtain ⟨hids, hnd, hcnt⟩ := hinv
  have hids' := (load_dispatcher_IdsOK cfg n s hids).1
  cases hc : dictLookup cfg n with
  | none =>
    rw [load_dispatcher_eq_none s hc] at hids' ⊢
    refine ⟨hids', hnd, ?_⟩
    intro dispname d hd subs hsubs ev
    by_cases hdn : dispname = n
    · subst hdn
      rw [hc] at hsubs
      exact absurd hsubs (by simp)
    · have hd' : dictLookup s.handlers dispname = some d := by
        rwa [show (loadStage1 n s).handlers = dictAssign s.handlers n s.nextId
          from rfl, dictLookup_assign_ne _ _ hdn] at hd
      exact hcnt dispname d hd' subs hsubs ev
  | some subs0 =>
    rw [load_dispatcher_eq_some s hc] at hids' ⊢
    refine ⟨hids', ?_, ?_⟩
    · exact subscribeAll_keys_nodup subs0 s.nextId (loadStage1 n s) hnd
    · intro dispname d hd subs hsubs ev
      have hh : (subscribeAll subs0 s.nextId (loadStage1 n s)).handlers =
          dictAssign s.handlers n s.nextId :=
        (subscribeAll_handlers_nextId subs0 s.nextId (loadStage1 n s)).1
      rw [hh] at hd
      rw [evCount_subscribeAll]
      by_cases hdn : dispname = n
      · rw [hdn] at hd hsubs
        rw [dictLookup_assign_self] at hd
        have hds : s.nextId = d := Option.some.inj hd
        rw [hc] at hsubs
        have hsubs0 : subs0 = subs := Option.some.inj hsubs
        rw [← hds, ← hsubs0]
        have hz : evCount (loadStage1 n s).dispatchers ev s.nextId =
            evCount s.dispatchers ev s.nextId := rfl
        rw [hz]
        rw [evCount_zero_of_IdsOK hids ev]
        simp
      · rw [dictLookup_assign_ne _ _ hdn] at hd
        have hdlt : d < s.nextId := hids.2 _ (dictLookup_mem hd)
        have hdne : ¬ d = s.nextId := by omega
        rw [if_neg hdne]
        have hz : evCount (loadStage1 n s).dispatchers ev d =
            evCount s.dispatchers ev d := rfl
        rw [hz, Nat.add_zero]
        exact hcnt dispname d hd subs hsubs ev

lemma CountInv_reachable (cfg : List (String × List String))
    (s : EngineState) (hreach : ReachableLoad cfg s) : CountInv cfg s := by
  induction hreach with
  | init =>
    refine ⟨⟨?_, ?_⟩, ?_, ?_⟩
    · intro p hp; exact absurd hp (List.not_mem_nil p)
    · intro p hp; exact absurd hp (List.not_mem_nil p)
    · exact List.nodup_nil
    · intro dispname d hd subs hsubs ev
      simp [dictLookup] at hd
  | load n h ih => exact CountInv_load _ _ _ ih

lemma removeAll_spec (d : Nat) :
    ∀ (subs : List String) (st : EngineState),
      (st.dispatchers.map Prod.fst).Nodup →
      (∀ ev, evCount st.dispatchers ev d = subs.count ev) →
      ∃ st', removeAll subs d st = some st' ∧
        st'.handlers = st.handlers ∧
        (st'.dispatchers.map Prod.fst).Nodup ∧
        ∀ ev, evCount st'.dispatchers ev d = 0 := by
  intro subs
  induction subs with
  | nil =>
    intro st hnd hcnt
    exact ⟨st, rfl, rfl, hnd, fun ev => by simpa using hcnt ev⟩
  | cons ev0 rest ih =>
    intro st hnd hcnt
    have h0 : evCount st.dispatchers ev0 d = rest.count ev0 + 1 := by
      have hc := hcnt ev0
      rw [List.count_cons] at hc
      simpa using hc
    cases hl : dictLookup st.dispatchers ev0 with
    | none =>
      rw [evCount, hl] at h0
      simp at h0
    | some l =>
      have hcl : l.count d = rest.count ev0 + 1 := by
        rw [evCount, hl] at h0
        simpa using h0
      have hdl : d ∈ l := by
        rw [← List.count_pos_iff]
        omega
      have hhas : dictHas st.dispatchers ev0 = true := by
        unfold dictLookup at hl
        unfold dictHas
        rcases Option.map_eq_some'.mp hl with ⟨p, hf, -⟩
        simp [hf]
      have hrm : removeFromList st d ev0 =
          some { st with dispatchers := dictSet st.dispatchers ev0 (l.erase d) } := by
        unfold removeFromList
        rw [hl]
        simp [hdl]
      have hnd1 : ((dictSet st.dispatchers ev0 (l.erase d)).map Prod.fst).Nodup := by
        rw [dictSet_keys]
        exact hnd
      have hcnt1 : ∀ ev,
          evCount (dictSet st.dispatchers ev0 (l.erase d)) ev d = rest.count ev := by
        intro ev
        by_cases he : ev = ev0
        · subst he
          rw [evCount, dictLookup_dictSet_self _ hhas]
          show (l.erase d).count d = rest.count ev
          rw [List.count_erase_self]
          omega
        · rw [evCount, dictLookup_dictSet_ne _ he]
          have hc := hcnt ev
          rw [List.count_cons] at hc
          have hne : (ev0 == ev) = false := by
            simp
            exact fun hcon => he hcon.symm
          rw [hne] at hc
          simpa using hc
      obtain ⟨st', h1, h2, h3, h4⟩ :=
        ih { st with dispatchers := dictSet st.dispatchers ev0 (l.erase d) }
          hnd1 hcnt1
      refine ⟨st', ?_, h2, h3, h4⟩
      show (match removeFromList st d ev0 with
        | none => none
        | some st2 => removeAll rest d st2) = some st'
      rw [hrm]
      exact h1

/-- Claim C6. For every registry state reachable by load operations
(including double-registration by reloading without unloading first),
unloading a dispatcher that has a configuration section removes its
current instance from every event subscription list and drops the name
from the handler registry, so no subsequent dispatch of any event invokes
that instance.  (An earlier instance left behind by a reload is a
different object and is not touched.) -/
theorem c6_unload_removes_handler (cfg : List (String × List String))
    (s : EngineState) (hreach : ReachableLoad cfg s) (dispname : String)
    (d : Nat) (subs : List String)
    (hd : dictLookup s.handlers dispname = some d)
    (hsubs : dictLookup cfg dispname = some subs) :
    ∃ s', unload_dispatcher cfg dispname s = some s' ∧
      dictLookup s'.handlers dispname = none ∧
      (∀ p ∈ s'.dispatchers, d ∉ p.2) ∧
      ∀ beh e, d ∉ (dispatch_event beh s'.dispatchers e).1 := by
  have hinv := CountInv_reachable cfg s hreach
  have hcnt := hinv.2.2 dispname d hd subs hsubs
  obtain ⟨st', hrem, hh, hnd, hzero⟩ := removeAll_spec d subs s hinv.2.1 hcnt
  have hnotin : ∀ p ∈ st'.dispatchers, d ∉ p.2 := by
    intro p hp hmem
    have hlk : dictLookup st'.dispatchers p.1 = some p.2 :=
      dictLookup_nodup_of_mem hnd hp
    have hz := hzero p.1
    rw [evCount, hlk] at hz
    simp only [Option.getD_some] at hz
    exact absurd hmem (List.count_eq_zero.mp hz)
  refine ⟨{ st' with handlers := dictErase st'.handlers dispname },
    ?_, ?_, hnotin, ?_⟩
  · simp only [unload_dispatcher, hsubs, hd, hrem, Option.map_some']
  · exact dictLookup_erase_self st'.handlers dispname
  · intro beh e hmem
    unfold dispatch_event at hmem
    cases hl : dictLookup st'.dispatchers e.name with
    | none =>
      rw [hl] at hmem
      exact absurd hmem (List.not_mem_nil d)
    | some l =>
      rw [hl] at hmem
      have hdl := runHandlers_subset l d hmem
      exact hnotin _ (dictLookup_mem hl) hdl

/-- Witness for claim C6: load `w` twice (double-registration), then
unload; the current instance 1 is gone from every list and from the
handler registry, and dispatching `x` does not invoke it. -/
theorem c6_unload_removes_handler_witness :
    ∃ s', unload_dispatcher [("w", ["x"])] "w"
        (load_dispatcher [("w", ["x"])] "w"
          ((load_dispatcher [("w", ["x"])] "w" ⟨[], [], 0⟩).1)).1 = some s' ∧
      dictLookup s'.handlers "w" = none ∧
      (∀ p ∈ s'.dispatchers, 1 ∉ p.2) ∧
      ∀ beh e, 1 ∉ (dispatch_event beh s'.dispatchers e).1 :=
  c6_unload_removes_handler [("w", ["x"])] _
    (ReachableLoad.load "w" (ReachableLoad.load "w" ReachableLoad.init))
    "w" 1 ["x"] (by decide) (by decide)

/-! ## Part 3: workspace-swap tracker (`dispatchers/workspaceswap.py`)

The Python tracker aliases mutable `Monitor` objects: `self.currentmon`
either refers to a dict entry of `self.monitors` (after a `focusedmon`
event) or to the standalone object built by `load_config`.  `CurRef`
captures exactly these two cases; writing through the reference writes
the dict entry in the first case. -/

/-- Per-monitor workspace record (`class Monitor`). -/
structure Monitor where
  name : String
  id : Int
  curr_wkspc : Option Int
  prev_wkspc : Option Int
deriving DecidableEq, Repr

/-- `Monitor.__init__(name, id, wkspc=None)`. -/
def Monitor.init (name : String) (id : Int) (wkspc : Option Int) : Monitor :=
  { name := name, id := id, curr_wkspc := wkspc, prev_wkspc := none }

/-- `Monitor.set_curr_wkspc`: move the old current workspace into
`prev_wkspc` only when the newly assigned value differs. -/
def Monitor.set_curr_wkspc (m : Monitor) (wkspc : Int) : Monitor :=
  if m.curr_wkspc ≠ some wkspc then
    { m with prev_wkspc := m.curr_wkspc, curr_wkspc := some wkspc }
  else m

/-- The history invariant asserted at the end of `set_curr_wkspc`:
`current != previous` whenever both are set (`none` compares unequal to
every set value in Python, so only the both-set case bites). -/
def MonInv (m : Monitor) : Prop :=
  m.prev_wkspc = none ∨ m.curr_wkspc ≠ m.prev_wkspc

instance (m : Monitor) : Decidable (MonInv m) := by
  unfold MonInv; exact inferInstance

lemma set_curr_wkspc_noop {m : Monitor} {w : Int} (h : m.curr_wkspc = some w) :
    m.set_curr_wkspc w = m := by
  simp [Monitor.set_curr_wkspc, h]

lemma set_curr_wkspc_move {m : Monitor} {w : Int} (h : m.curr_wkspc ≠ some w) :
    (m.set_curr_wkspc w).curr_wkspc = some w ∧
      (m.set_curr_wkspc w).prev_wkspc = m.curr_wkspc := by
  simp [Monitor.set_curr_wkspc, h]

lemma set_curr_wkspc_curr (m : Monitor) (w : Int) :
    (m.set_curr_wkspc w).curr_wkspc = some w := by
  unfold Monitor.set_curr_wkspc
  by_cases h : m.curr_wkspc = some w
  · simp [h]
  · simp [h]

lemma set_curr_wkspc_name (m : Monitor) (w : Int) :
    (m.set_curr_wkspc w).name = m.name := by
  unfold Monitor.set_curr_wkspc
  by_cases h : m.curr_wkspc = some w <;> simp [h]

lemma MonInv_set (m : Monitor) (w : Int) (h : MonInv m) :
    MonInv (m.set_curr_wkspc w) := by
  unfold Monitor.set_curr_wkspc
  by_cases hc : m.curr_wkspc = some w
  · rw [if_neg (fun hne => hne hc)]
    exact h
  · rw [if_pos hc]
    right
    show some w ≠ m.curr_wkspc
    exact fun heq => hc heq.symm

lemma MonInv_init (name : String) (id : Int) (w : Option Int) :
    MonInv (Monitor.init name id w) := Or.inl rfl

lemma MonInv_fold (ws : List Int) :
    ∀ m : Monitor, MonInv m → MonInv (ws.foldl Monitor.set_curr_wkspc m) := by
  induction ws with
  | nil => intro m h; exact h
  | cons w rest ih => intro m h; exact ih _ (MonInv_set m w h)

/-- Claim C3. For every monitor record reachable from the constructor by
a sequence of `set_curr_wkspc` assignments: `current != previous` holds
whenever both are set; re-assigning the value already current changes
neither field (a no-op on history); and assigning a differing value moves
the old current into `previous` and installs the new value as current. -/
theorem c3_set_curr_wkspc_history (name : String) (mid : Int)
    (w0 : Option Int) (ws : List Int) :
    MonInv (ws.foldl Monitor.set_curr_wkspc (Monitor.init name mid w0)) ∧
      (∀ w, (ws.foldl Monitor.set_curr_wkspc (Monitor.init name mid w0)).curr_wkspc = some w →
        (ws.foldl Monitor.set_curr_wkspc (Monitor.init name mid w0)).set_curr_wkspc w =
          ws.foldl Monitor.set_curr_wkspc (Monitor.init name mid w0)) ∧
      (∀ w, (ws.foldl Monitor.set_curr_wkspc (Monitor.init name mid w0)).curr_wkspc ≠ some w →
        ((ws.foldl Monitor.set_curr_wkspc (Monitor.init name mid w0)).set_curr_wkspc w).curr_wkspc = some w ∧
        ((ws.foldl Monitor.set_curr_wkspc (Monitor.init name mid w0)).set_curr_wkspc w).prev_wkspc =
          (ws.foldl Monitor.set_curr_wkspc (Monitor.init name mid w0)).curr_wkspc) := by
  refine ⟨MonInv_fold ws _ (MonInv_init name mid w0), ?_, ?_⟩
  · intro w hw
    exact set_curr_wkspc_noop hw
  · intro w hw
    exact set_curr_wkspc_move hw

/-- Witness for claim C3 on the record `DP-1` after assignments `[2, 3]`
from initial workspace `1`: the invariant holds, re-assigning `3` is a
no-op, and assigning `5` moves `3` into `previous`. -/
theorem c3_set_curr_wkspc_history_witness :
    MonInv ([2, 3].foldl Monitor.set_curr_wkspc (Monitor.init "DP-1" 0 (some 1))) ∧
      ([2, 3].foldl Monitor.set_curr_wkspc (Monitor.init "DP-1" 0 (some 1))).set_curr_wkspc 3 =
        [2, 3].foldl Monitor.set_curr_wkspc (Monitor.init "DP-1" 0 (some 1)) ∧
      (([2, 3].foldl Monitor.set_curr_wkspc (Monitor.init "DP-1" 0 (some 1))).set_curr_wkspc 5).curr_wkspc = some 5 ∧
      (([2, 3].foldl Monitor.set_curr_wkspc (Monitor.init "DP-1" 0 (some 1))).set_curr_wkspc 5).prev_wkspc =
        ([2, 3].foldl Monitor.set_curr_wkspc (Monitor.init "DP-1" 0 (some 1))).curr_wkspc :=
  ⟨(c3_set_curr_wkspc_history "DP-1" 0 (some 1) [2, 3]).1,
   (c3_set_curr_wkspc_history "DP-1" 0 (some 1) [2, 3]).2.1 3 (by decide),
   ((c3_set_curr_wkspc_history "DP-1" 0 (some 1) [2, 3]).2.2 5 (by decide)).1,
   ((c3_set_curr_wkspc_history "DP-1" 0 (some 1) [2, 3]).2.2 5 (by decide)).2⟩

/-- The `self.currentmon` reference: either an alias of a `self.monitors`
dict entry (set by a `focusedmon` event) or the standalone object created
by `load_config`. -/
inductive CurRef where
  | table (k : String)
  | orphan (m : Monitor)
deriving DecidableEq, Repr

/-- Mutable state of the `WorkspaceSwap` handler. -/
structure WSState where
  monitors : List (String × Monitor)
  currentmon : CurRef
deriving DecidableEq, Repr

/-- Read the monitor object `self.currentmon` refers to. -/
def getCur (s : WSState) : Monitor :=
  match s.currentmon with
  | .table k => (dictLookup s.monitors k).getD (Monitor.init "" 0 none)
  | .orphan m => m

/-- Mutate the monitor object `self.currentmon` refers to in place: for a
dict alias this writes the dict entry. -/
def setCur (s : WSState) (m : Monitor) : WSState :=
  match s.currentmon with
  | .table k => { s with monitors := dictSet s.monitors k m }
  | .orphan _ => { s with currentmon := .orphan m }

/-- One entry of the `hyprctl monitors` reply: name, id, and
`activeWorkspace.id`. -/
structure MonInfo where
  name : String
  id : Int
  wkspc : Int
deriving DecidableEq, Repr

/-- The command gateway's view during one toggle: the `monitors` reply
plus the `activeworkspace` reply (`monitor`, `monitorID`, `id`).  The
gateway blocks the single thread, so the view is fixed while the
recursion runs (the toggle issues no state-changing command before its
base case). -/
structure GatewayView where
  monitors : List MonInfo
  activeMonitor : String
  activeMonitorID : Int
  activeWkspc : Int
deriving DecidableEq, Repr

/-- Model of `WorkspaceSwap.load_config`'s state initialisation: a fresh
standalone record for the active monitor and one fresh record per
enumerated monitor. -/
def ws_load_config (g : GatewayView) : WSState :=
  { monitors := g.monitors.foldl
      (fun d gm => dictAssign d gm.name (Monitor.init gm.name gm.id (some gm.wkspc))) [],
    currentmon := .orphan (Monitor.init g.activeMonitor g.activeMonitorID (some g.activeWkspc)) }

/-- One iteration of the refresh loop in `update_monitor_info`. -/
def updLoopStep (st : WSState) (gm : MonInfo) : WSState :=
  match dictLookup st.monitors gm.name with
  | some m => { st with monitors := dictSet st.monitors gm.name (m.set_curr_wkspc gm.wkspc) }
  | none => { st with monitors := st.monitors ++ [(gm.name, Monitor.init gm.name gm.id (some gm.wkspc))] }

/-- Model of `WorkspaceSwap.update_monitor_info`: refresh every known
monitor from the `monitors` reply (creating records for new names), then
overwrite the referenced current monitor's `name`/`id` in place and
re-assign its current workspace from the `activeworkspace` reply. -/
def update_monitor_info (g : GatewayView) (s : WSState) : WSState :=
  let s1 := g.monitors.foldl updLoopStep s
  let c1 : Monitor :=
    { getCur s1 with name := g.activeMonitor, id := g.activeMonitorID }
  setCur s1 (c1.set_curr_wkspc g.activeWkspc)

/-- Model of `WorkspaceSwap.find_wkspc_mon`: first monitor record (dict
insertion order) whose current (or, with the flag, previous) workspace
equals the id. -/
def find_wkspc_mon (s : WSState) (wkspcid : Int) (prev : Bool) : Option Monitor :=
  (s.monitors.find? (fun p =>
    if prev then p.2.prev_wkspc == some wkspcid
    else p.2.curr_wkspc == some wkspcid)).map (fun p => p.2)

/-- Model of `WorkspaceSwap.do_workspace_change`.  `fuel` bounds the call
stack; `none` means the bound was exhausted.  The `List Int` accumulates
the workspace ids of issued `focusworkspaceoncurrentmonitor` commands. -/
def do_workspace_change (g : GatewayView) : Nat → WSState → Int → Option (WSState × List Int)
  | 0, _, _ => none
  | fuel + 1, s, wkspcid =>
    let s1 := update_monitor_info g s
    match find_wkspc_mon s1 wkspcid false with
    | some othermon =>
      if othermon.name = (getCur s1).name then
        match (getCur s1).prev_wkspc with
        | none => some (s1, [])
        | some p => do_workspace_change g fuel s1 p
      else some (s1, [wkspcid])
    | none => some (s1, [wkspcid])

/-- Value of a decimal digit string, as `int()` would compute it. -/
def digitsToNat (l : List Char) : Nat :=
  l.foldl (fun acc c => acc * 10 + (c.toNat - 48)) 0

/-- Model of Python `int(str)` on the strings this program feeds it:
optional sign followed by decimal digits; anything else raises
`ValueError` (`none`). -/
def pyInt (str : String) : Option Int :=
  match str.toList with
  | [] => none
  | '-' :: rest =>
    if rest ≠ [] ∧ rest.all Char.isDigit then some (-(digitsToNat rest : Int))
    else none
  | l =>
    if l.all Char.isDigit then some (digitsToNat l : Int) else none

/-- Model of `parse_focusedmon_data`: split on `,`, return
`(s[0], int(s[1]))`; an index or conversion error raises (`none`). -/
def parse_focusedmon_data (data : String) : Option (String × Int) :=
  let s := data.splitOn ","
  match s.get? 1 with
  | none => none
  | some snd => (pyInt snd).map (fun i => (s.headD "", i))

/-- Model of `parse_moveworkspace_data`: `(int(s[0]), s[1], s[2])`. -/
def parse_moveworkspace_data (data : String) : Option (Int × String × String) :=
  let s := data.splitOn ","
  match s.get? 0, s.get? 1, s.get? 2 with
  | some a, some b, some c => (pyInt a).map (fun i => (i, b, c))
  | _, _, _ => none

/-- Model of `WorkspaceSwap.handle_event`.  `trigger` is the configured
`swap-ev` regex abstracted as "first capture group of a search, if any";
`fuel` bounds the toggle recursion; `none` models an uncaught exception
escaping the handler.  The issued focus commands are returned. -/
def ws_handle_event (g : GatewayView) (trigger : String → Option String)
    (fuel : Nat) (s : WSState) (e : HyprEvent) : Option (WSState × List Int) :=
  if e.name = "focusedmon" then
    match parse_focusedmon_data e.data with
    | none => none
    | some (monname, _) =>
      if dictHas s.monitors monname then
        some ({ s with currentmon := .table monname }, [])
      else none
  else if e.name = "workspace" then
    match pyInt e.data with
    | none => none
    | some w => some (setCur s ((getCur s).set_curr_wkspc w), [])
  else if e.name = "moveworkspacev2" then
    match parse_moveworkspace_data e.data with
    | none => none
    | some (w, _, monname) =>
      match dictLookup s.monitors monname with
      | none => none
      | some m =>
        some ({ s with monitors := dictSet s.monitors monname (m.set_curr_wkspc w) }, [])
  else if e.name = "custom" then
    match trigger e.data with
    | none => some (s, [])
    | some g1 =>
      match pyInt g1 with
      | none => some (s, [])
      | some w => do_workspace_change g fuel s w
  else some (s, [])

/-- Claim C7. When a `workspace` event with a numeric id arrives and the
active-monitor reference identifies a monitors-table entry (key `k`), the
handler applies the id via the assignment rule to exactly that entry:
afterwards the `k` entry holds `set_curr_wkspc` of its old record, every
other entry is untouched, and the reference itself is unchanged. -/
theorem c7_workspace_event_updates_active_entry (g : GatewayView)
    (trigger : String → Option String) (fuel : Nat) (s : WSState)
    (k : String) (m : Monitor) (dat : String) (w : Int)
    (hcur : s.currentmon = CurRef.table k)
    (hm : dictLookup s.monitors k = some m)
    (hw : pyInt dat = some w) :
    ws_handle_event g trigger fuel s ⟨"workspace", dat⟩ =
      some ({ s with monitors := dictSet s.monitors k (m.set_curr_wkspc w) }, []) ∧
      dictLookup (dictSet s.monitors k (m.set_curr_wkspc w)) k =
        some (m.set_curr_wkspc w) ∧
      (∀ k', k' ≠ k →
        dictLookup (dictSet s.monitors k (m.set_curr_wkspc w)) k' =
          dictLookup s.monitors k') := by
  have hhas : dictHas s.monitors k = true := by
    unfold dictLookup at hm
    unfold dictHas
    rcases Option.map_eq_some'.mp hm with ⟨p, hf, -⟩
    simp [hf]
  refine ⟨?_, dictLookup_dictSet_self _ hhas, fun k' hk' => dictLookup_dictSet_ne _ hk'⟩
  show (if "workspace" = "focusedmon" then _ else _) = _
  rw [if_neg (by decide)]
  show (if "workspace" = "workspace" then _ else _) = _
  rw [if_pos rfl]
  rw [hw]
  show some (setCur s ((getCur s).set_curr_wkspc w), []) = _
  unfold getCur setCur
  rw [hcur]
  simp [hm]

/-- Witness for claim C7: a `workspace 5` event updates the `DP-1` entry
the reference identifies, leaving `HDMI-1` untouched. -/
theorem c7_workspace_event_updates_active_entry_witness :
    ws_handle_event ⟨[], "DP-1", 0, 1⟩ (fun _ => none) 0
        ⟨[("DP-1", Monitor.init "DP-1" 0 (some 1)),
          ("HDMI-1", Monitor.init "HDMI-1" 1 (some 3))], CurRef.table "DP-1"⟩
        ⟨"workspace", "5"⟩ =
      some (⟨[("DP-1", (Monitor.init "DP-1" 0 (some 1)).set_curr_wkspc 5),
          ("HDMI-1", Monitor.init "HDMI-1" 1 (some 3))], CurRef.table "DP-1"⟩, []) ∧
      dictLookup [("DP-1", (Monitor.init "DP-1" 0 (some 1)).set_curr_wkspc 5),
          ("HDMI-1", Monitor.init "HDMI-1" 1 (some 3))] "HDMI-1" =
        dictLookup [("DP-1", Monitor.init "DP-1" 0 (some 1)),
          ("HDMI-1", Monitor.init "HDMI-1" 1 (some 3))] "HDMI-1" := by
  have h := c7_workspace_event_updates_active_entry ⟨[], "DP-1", 0, 1⟩
    (fun _ => none) 0
    ⟨[("DP-1", Monitor.init "DP-1" 0 (some 1)),
      ("HDMI-1", Monitor.init "HDMI-1" 1 (some 3))], CurRef.table "DP-1"⟩
    "DP-1" (Monitor.init "DP-1" 0 (some 1)) "5" 5 rfl (by decide) (by decide)
  exact ⟨h.1, h.2.2 "HDMI-1" (by decide)⟩

/-- The current-monitor reference is valid: a table alias points at an
existing dict key. -/
def curOK (s : WSState) : Bool :=
  match s.currentmon with
  | .table k => dictHas s.monitors k
  | .orphan _ => true

/-- Every monitor record in the tracker satisfies the history invariant. -/
def MonInvAll (s : WSState) : Prop :=
  (∀ p ∈ s.monitors, MonInv p.2) ∧ MonInv (getCur s)

/-- Any dict entry carrying the gateway's active-monitor name either sits
under that key or is the entry the current-monitor reference aliases
(renaming by `update_monitor_info` can only affect the latter). -/
def namesOK (g : GatewayView) (s : WSState) : Prop :=
  ∀ p ∈ s.monitors, (p.2 : Monitor).name = g.activeMonitor →
    p.1 = g.activeMonitor ∨ s.currentmon = CurRef.table p.1

/-- Well-formed tracker state relative to the gateway view. -/
def WFS (g : GatewayView) (s : WSState) : Prop :=
  (s.monitors.map Prod.fst).Nodup ∧ curOK s = true ∧ MonInvAll s ∧ namesOK g s

/-- Consistent gateway view: monitor names are unique and the reported
active monitor appears in the enumeration with the reported active
workspace. -/
def GOK (g : GatewayView) : Prop :=
  (g.monitors.map MonInfo.name).Nodup ∧
    ∃ gm ∈ g.monitors, gm.name = g.activeMonitor ∧ gm.wkspc = g.activeWkspc

instance (s : WSState) : Decidable (MonInvAll s) := by
  unfold MonInvAll; exact inferInstance

instance (g : GatewayView) (s : WSState) : Decidable (namesOK g s) := by
  unfold namesOK; exact inferInstance

instance (g : GatewayView) (s : WSState) : Decidable (WFS g s) := by
  unfold WFS; exact inferInstance

instance (g : GatewayView) : Decidable (GOK g) := by
  unfold GOK; exact inferInstance

lemma getCur_table {s : WSState} {k : String} (h : s.currentmon = CurRef.table k) :
    getCur s = (dictLookup s.monitors k).getD (Monitor.init "" 0 none) := by
  unfold getCur
  rw [h]

lemma getCur_orphan {s : WSState} {m : Monitor} (h : s.currentmon = CurRef.orphan m) :
    getCur s = m := by
  unfold getCur
  rw [h]

lemma setCur_table {s : WSState} {k : String} (h : s.currentmon = CurRef.table k)
    (m : Monitor) : setCur s m = { s with monitors := dictSet s.monitors k m } := by
  unfold setCur
  rw [h]

lemma setCur_orphan {s : WSState} {m0 : Monitor}
    (h : s.currentmon = CurRef.orphan m0) (m : Monitor) :
    setCur s m = { s with currentmon := CurRef.orphan m } := by
  unfold setCur
  rw [h]

lemma dictHas_iff_key {α : Type} (d : List (String × α)) (k : String) :
    dictHas d k = true ↔ k ∈ d.map Prod.fst := by
  unfold dictHas
  rw [List.find?_isSome]
  constructor
  · rintro ⟨p, hp, hpk⟩
    exact List.mem_map.mpr ⟨p, hp, by simpa using hpk⟩
  · intro hmem
    rcases List.mem_map.mp hmem with ⟨p, hp, hpk⟩
    exact ⟨p, hp, by simp [hpk]⟩

lemma dictHas_some {α : Type} {d : List (String × α)} {k : String}
    (h : dictHas d k = true) : ∃ v, dictLookup d k = some v := by
  unfold dictHas at h
  rcases Option.isSome_iff_exists.mp h with ⟨p, hp⟩
  exact ⟨p.2, by simp [dictLookup, hp]⟩

lemma dictLookup_some_has {α : Type} {d : List (String × α)} {k : String}
    {v : α} (h : dictLookup d k = some v) : dictHas d k = true := by
  unfold dictLookup at h
  unfold dictHas
  rcases Option.map_eq_some'.mp h with ⟨p, hf, -⟩
  simp [hf]

/-- Invariant carried through the refresh loop of `update_monitor_info`,
relating the running state to the loop's starting state `s0`. -/
structure LoopInv (s0 st : WSState) : Prop where
  keys : (st.monitors.map Prod.fst).Nodup
  inv : ∀ p ∈ st.monitors, MonInv p.2
  cur : st.currentmon = s0.currentmon
  grow : ∀ k, dictHas s0.monitors k = true → dictHas st.monitors k = true
  names : ∀ p ∈ st.monitors,
    (∃ m0, (p.1, m0) ∈ s0.monitors ∧ (p.2 : Monitor).name = m0.name) ∨
      (p.2 : Monitor).name = p.1

lemma updLoopStep_some {st : WSState} {gm : MonInfo} {m : Monitor}
    (hl : dictLookup st.monitors gm.name = some m) :
    updLoopStep st gm =
      { st with monitors := dictSet st.monitors gm.name (m.set_curr_wkspc gm.wkspc) } := by
  unfold updLoopStep
  rw [hl]

lemma updLoopStep_none {st : WSState} {gm : MonInfo}
    (hl : dictLookup st.monitors gm.name = none) :
    updLoopStep st gm =
      { st with monitors :=
          st.monitors ++ [(gm.name, Monitor.init gm.name gm.id (some gm.wkspc))] } := by
  unfold updLoopStep
  rw [hl]

lemma loopInv_step {s0 st : WSState} (gm : MonInfo) (h : LoopInv s0 st) :
    LoopInv s0 (updLoopStep st gm) := by
  cases hl : dictLookup st.monitors gm.name with
  | some m =>
    rw [updLoopStep_some hl]
    refine ⟨?_, ?_, h.cur, ?_, ?_⟩
    · rw [dictSet_keys]; exact h.keys
    · intro p hp
      rcases List.mem_map.mp hp with ⟨q, hq, hpq⟩
      by_cases hqk : (q.1 == gm.name) = true
      · rw [if_pos hqk] at hpq
        rw [← hpq]
        exact MonInv_set m gm.wkspc (h.inv _ (dictLookup_mem hl))
      · rw [if_neg hqk] at hpq
        exact h.inv p (hpq ▸ hq)
    · intro k hk
      rw [dictHas_iff_key, dictSet_keys, ← dictHas_iff_key]
      exact h.grow k hk
    · intro p hp
      rcases List.mem_map.mp hp with ⟨q, hq, hpq⟩
      by_cases hqk : (q.1 == gm.name) = true
      · rw [if_pos hqk] at hpq
        have hq1 : q.1 = gm.name := by simpa using hqk
        have hres := h.names (gm.name, m) (dictLookup_mem hl)
        rw [← hpq]
        simp only [set_curr_wkspc_name]
        rw [hq1]
        exact hres
      · rw [if_neg hqk] at hpq
        exact h.names p (hpq ▸ hq)
  | none =>
    rw [updLoopStep_none hl]
    have hfresh : gm.name ∉ st.monitors.map Prod.fst := dictLookup_none_not_key hl
    refine ⟨?_, ?_, h.cur, ?_, ?_⟩
    · rw [List.map_append, List.nodup_append]
      refine ⟨h.keys, List.nodup_singleton _, ?_⟩
      intro a ha hb
      simp only [List.map_cons, List.map_nil, List.mem_singleton] at hb
      exact hfresh (hb ▸ ha)
    · intro p hp
      rcases List.mem_append.mp hp with hp | hp
      · exact h.inv p hp
      · simp only [List.mem_singleton] at hp
        rw [hp]
        exact MonInv_init _ _ _
    · intro k hk
      rw [dictHas_iff_key, List.map_append]
      exact List.mem_append_left _ ((dictHas_iff_key _ _).mp (h.grow k hk))
    · intro p hp
      rcases List.mem_append.mp hp with hp | hp
      · exact h.names p hp
      · simp only [List.mem_singleton] at hp
        rw [hp]
        exact Or.inr rfl

lemma loopInv_fold (s0 : WSState) (l : List MonInfo) :
    ∀ st, LoopInv s0 st → LoopInv s0 (l.foldl updLoopStep st) := by
  induction l with
  | nil => intro st h; exact h
  | cons gm rest ih => intro st h; exact ih (updLoopStep st gm) (loopInv_step gm h)

lemma updLoopStep_lookup_ne (st : WSState) (gm : MonInfo) {k : String}
    (h : gm.name ≠ k) :
    dictLookup (updLoopStep st gm).monitors k = dictLookup st.monitors k := by
  cases hl : dictLookup st.monitors gm.name with
  | some m =>
    rw [updLoopStep_some hl]
    exact dictLookup_dictSet_ne _ (fun he => h he.symm)
  | none =>
    rw [updLoopStep_none hl]
    exact dictLookup_append_single_ne _ (fun he => h he.symm)

lemma fold_lookup_stable (k : String) :
    ∀ (l : List MonInfo), (∀ gm ∈ l, gm.name ≠ k) → ∀ st : WSState,
      dictLookup ((l.foldl updLoopStep st).monitors) k = dictLookup st.monitors k := by
  intro l
  induction l with
  | nil => intro _ st; rfl
  | cons gm rest ih =>
    intro hk st
    have step : (gm :: rest).foldl updLoopStep st = rest.foldl updLoopStep (updLoopStep st gm) := rfl
    rw [step, ih (fun gm' h' => hk gm' (List.mem_cons_of_mem _ h')) (updLoopStep st gm)]
    exact updLoopStep_lookup_ne st gm (hk gm (List.mem_cons_self _ _))

lemma fold_processed :
    ∀ (l : List MonInfo), (l.map MonInfo.name).Nodup → ∀ gm ∈ l, ∀ st : WSState,
      ∃ m, dictLookup ((l.foldl updLoopStep st).monitors) gm.name = some m ∧
        m.curr_wkspc = some gm.wkspc := by
  intro l
  induction l with
  | nil => intro _ gm hgm; exact absurd hgm (List.not_mem_nil gm)
  | cons gm0 rest ih =>
    intro hnd gm hgm st
    simp only [List.map_cons, List.nodup_cons] at hnd
    have hstable : ∀ gm' ∈ rest, gm'.name ≠ gm0.name := by
      intro gm' h' he
      exact hnd.1 (he ▸ List.mem_map.mpr ⟨gm', h', rfl⟩)
    rcases List.mem_cons.mp hgm with heq | htl
    · subst heq
      have step : (gm :: rest).foldl updLoopStep st = rest.foldl updLoopStep (updLoopStep st gm) := rfl
      rw [step, fold_lookup_stable gm.name rest hstable (updLoopStep st gm)]
      cases hl : dictLookup st.monitors gm.name with
      | some m =>
        rw [updLoopStep_some hl]
        refine ⟨m.set_curr_wkspc gm.wkspc, ?_, set_curr_wkspc_curr m gm.wkspc⟩
        exact dictLookup_dictSet_self _ (dictLookup_some_has hl)
      | none =>
        rw [updLoopStep_none hl]
        exact ⟨Monitor.init gm.name gm.id (some gm.wkspc),
          dictLookup_append_single_self _ hl, rfl⟩
    · exact ih hnd.2 gm htl (updLoopStep st gm0)

lemma mem_dictSet_cases {α : Type} {d : List (String × α)} {k : String} {v : α}
    {p : String × α} (hp : p ∈ dictSet d k v) :
    (p ∈ d ∧ p.1 ≠ k) ∨ (∃ q, q ∈ d ∧ q.1 = k ∧ p = (q.1, v)) := by
  rcases List.mem_map.mp hp with ⟨q, hq, hpq⟩
  by_cases hqk : (q.1 == k) = true
  · right
    exact ⟨q, hq, by simpa using hqk, by rw [← hpq, if_pos hqk]⟩
  · left
    rw [if_neg hqk] at hpq
    refine ⟨hpq ▸ hq, ?_⟩
    rw [← hpq]
    simpa using hqk

lemma update_monitor_info_props (g : GatewayView) (s : WSState)
    (hwfs : WFS g s) (hgok : GOK g) :
    WFS g (update_monitor_info g s) ∧
      (getCur (update_monitor_info g s)).curr_wkspc = some g.activeWkspc ∧
      (getCur (update_monitor_info g s)).name = g.activeMonitor ∧
      ∀ p ∈ (update_monitor_info g s).monitors,
        (p.2 : Monitor).name = g.activeMonitor →
          (p.2 : Monitor).curr_wkspc = some g.activeWkspc := by
  obtain ⟨hnd, hcur, hinv, hnames⟩ := hwfs
  have h1 : LoopInv s (g.monitors.foldl updLoopStep s) :=
    loopInv_fold s g.monitors s
      ⟨hnd, hinv.1, rfl, fun _ hk => hk, fun p hp => Or.inl ⟨p.2, hp, rfl⟩⟩
  set s1 := g.monitors.foldl updLoopStep s with hs1
  obtain ⟨hgnd, gmStar, hgmMem, hgmName, hgmW⟩ := hgok
  obtain ⟨mP, hmP, hmPcurr⟩ := fold_processed g.monitors hgnd gmStar hgmMem s
  rw [hgmName] at hmP
  rw [hgmW] at hmPcurr
  rw [← hs1] at hmP
  have hkeyOf : ∀ p ∈ s1.monitors, (p.2 : Monitor).name = g.activeMonitor →
      p.1 = g.activeMonitor ∨ s.currentmon = CurRef.table p.1 := by
    intro p hp hname
    rcases h1.names p hp with ⟨m0, hm0, heq⟩ | heq
    · exact hnames (p.1, m0) hm0 (heq ▸ hname)
    · exact Or.inl (heq ▸ hname)
  have hlookAt : ∀ p ∈ s1.monitors, p.1 = g.activeMonitor →
      (p.2 : Monitor).curr_wkspc = some g.activeWkspc := by
    intro p hp hke
    have hl := dictLookup_nodup_of_mem h1.keys (show (p.1, p.2) ∈ s1.monitors from hp)
    rw [hke, hmP] at hl
    have hmp2 : mP = p.2 := Option.some.inj hl
    rw [← hmp2]
    exact hmPcurr
  have hMc0 : MonInv (getCur s1) := by
    cases hsc : s.currentmon with
    | table k =>
      have hhask : dictHas s.monitors k = true := by
        have hck := hcur
        unfold curOK at hck
        rw [hsc] at hck
        exact hck
      obtain ⟨v, hv⟩ := dictHas_some (h1.grow k hhask)
      rw [getCur_table (h1.cur.trans hsc), hv]
      exact h1.inv _ (dictLookup_mem hv)
    | orphan m0 =>
      rw [getCur_orphan (h1.cur.trans hsc)]
      have hg : getCur s = m0 := getCur_orphan hsc
      rw [← hg]
      exact hinv.2
  set c1 : Monitor :=
    { getCur s1 with name := g.activeMonitor, id := g.activeMonitorID } with hc1
  set c : Monitor := c1.set_curr_wkspc g.activeWkspc with hc
  have hMc1 : MonInv c1 := hMc0
  have hMc : MonInv c := MonInv_set c1 g.activeWkspc hMc1
  have hcname : c.name = g.activeMonitor := by
    rw [hc, set_curr_wkspc_name, hc1]
  have hccurr : c.curr_wkspc = some g.activeWkspc := by
    rw [hc]
    exact set_curr_wkspc_curr c1 g.activeWkspc
  show WFS g (setCur s1 c) ∧ (getCur (setCur s1 c)).curr_wkspc = some g.activeWkspc ∧
    (getCur (setCur s1 c)).name = g.activeMonitor ∧
    ∀ p ∈ (setCur s1 c).monitors, (p.2 : Monitor).name = g.activeMonitor →
      (p.2 : Monitor).curr_wkspc = some g.activeWkspc
  cases hsc : s.currentmon with
  | orphan m0 =>
    have hsc1 : s1.currentmon = CurRef.orphan m0 := h1.cur.trans hsc
    rw [setCur_orphan hsc1 c]
    have hgc : getCur { s1 with currentmon := CurRef.orphan c } = c := getCur_orphan rfl
    have hKey : ∀ p ∈ s1.monitors, (p.2 : Monitor).name = g.activeMonitor →
        p.1 = g.activeMonitor := by
      intro p hp hname
      rcases hkeyOf p hp hname with h | h
      · exact h
      · rw [hsc] at h
        exact absurd h (by simp)
    refine ⟨⟨h1.keys, rfl, ⟨h1.inv, ?_⟩, ?_⟩, ?_, ?_, ?_⟩
    · rw [hgc]
      exact hMc
    · intro p hp hname
      exact Or.inl (hKey p hp hname)
    · rw [hgc]
      exact hccurr
    · rw [hgc]
      exact hcname
    · intro p hp hname
      exact hlookAt p hp (hKey p hp hname)
  | table k =>
    have hsc1 : s1.currentmon = CurRef.table k := h1.cur.trans hsc
    have hhask : dictHas s.monitors k = true := by
      have hck := hcur
      unfold curOK at hck
      rw [hsc] at hck
      exact hck
    have hhask1 : dictHas s1.monitors k = true := h1.grow k hhask
    rw [setCur_table hsc1 c]
    have hlookc : dictLookup (dictSet s1.monitors k c) k = some c :=
      dictLookup_dictSet_self _ hhask1
    have hgc : getCur { s1 with monitors := dictSet s1.monitors k c } = c := by
      rw [getCur_table (show ({ s1 with monitors := dictSet s1.monitors k c} : WSState).currentmon = CurRef.table k from hsc1)]
      rw [show ({ s1 with monitors := dictSet s1.monitors k c} : WSState).monitors = dictSet s1.monitors k c from rfl]
      rw [hlookc]
      rfl
    have hKeyNe : ∀ p ∈ s1.monitors, p.1 ≠ k →
        (p.2 : Monitor).name = g.activeMonitor → p.1 = g.activeMonitor := by
      intro p hp hpk hname
      rcases hkeyOf p hp hname with h | h
      · exact h
      · rw [hsc] at h
        have : k = p.1 := by injection h
        exact absurd this.symm hpk
    refine ⟨⟨?_, ?_, ⟨?_, ?_⟩, ?_⟩, ?_, ?_, ?_⟩
    · rw [show ({ s1 with monitors := dictSet s1.monitors k c} : WSState).monitors = dictSet s1.monitors k c from rfl, dictSet_keys]
      exact h1.keys
    · unfold curOK
      rw [show ({ s1 with monitors := dictSet s1.monitors k c} : WSState).currentmon = CurRef.table k from hsc1]
      rw [dictHas_iff_key]
      rw [show ({ s1 with monitors := dictSet s1.monitors k c} : WSState).monitors = dictSet s1.monitors k c from rfl, dictSet_keys]
      exact (dictHas_iff_key _ _).mp hhask1
    · intro p hp
      rcases mem_dictSet_cases hp with ⟨hpd, -⟩ | ⟨q, -, -, hpq⟩
      · exact h1.inv p hpd
      · rw [hpq]
        exact hMc
    · rw [hgc]
      exact hMc
    · intro p hp hname
      rcases mem_dictSet_cases hp with ⟨hpd, hpk⟩ | ⟨q, -, hqk, hpq⟩
      · exact Or.inl (hKeyNe p hpd hpk hname)
      · right
        rw [hpq]
        rw [show ({ s1 with monitors := dictSet s1.monitors k c} : WSState).currentmon = CurRef.table k from hsc1, hqk]
    · rw [hgc]
      exact hccurr
    · rw [hgc]
      exact hcname
    · intro p hp hname
      rcases mem_dictSet_cases hp with ⟨hpd, hpk⟩ | ⟨q, -, -, hpq⟩
      · exact hlookAt p hpd (hKeyNe p hpd hpk hname)
      · rw [hpq]
        exact hccurr

lemma find_wkspc_mon_some {s : WSState} {w : Int} {m : Monitor}
    (h : find_wkspc_mon s w false = some m) :
    m.curr_wkspc = some w ∧ ∃ k, (k, m) ∈ s.monitors := by
  unfold find_wkspc_mon at h
  rcases Option.map_eq_some'.mp h with ⟨p, hf, hv⟩
  have hpred := List.find?_some hf
  have hmem := List.mem_of_find?_eq_some hf
  simp only [Bool.false_eq_true, if_false, beq_iff_eq] at hpred
  refine ⟨by rw [← hv]; exact hpred, p.1, ?_⟩
  rw [← hv]
  exact hmem

lemma find_wkspc_mon_isSome {s : WSState} {w : Int}
    (hex : ∃ p ∈ s.monitors, (p.2 : Monitor).curr_wkspc = some w) :
    ∃ m, find_wkspc_mon s w false = some m := by
  obtain ⟨p, hp, hc⟩ := hex
  have hsome : (s.monitors.find? (fun p =>
      if false then p.2.prev_wkspc == some w
      else p.2.curr_wkspc == some w)).isSome = true :=
    List.find?_isSome.mpr ⟨p, hp, by simp [hc]⟩
  rcases Option.isSome_iff_exists.mp hsome with ⟨q, hq⟩
  exact ⟨q.2, by unfold find_wkspc_mon; rw [hq]; rfl⟩

lemma dwc_succ (g : GatewayView) (fuel : Nat) (s : WSState) (w : Int) :
    do_workspace_change g (fuel + 1) s w =
      (match find_wkspc_mon (update_monitor_info g s) w false with
       | some othermon =>
         if othermon.name = (getCur (update_monitor_info g s)).name then
           match (getCur (update_monitor_info g s)).prev_wkspc with
           | none => some (update_monitor_info g s, [])
           | some p => do_workspace_change g fuel (update_monitor_info g s) p
         else some (update_monitor_info g s, [w])
       | none => some (update_monitor_info g s, [w])) := rfl

lemma dwc_found_branch (g : GatewayView) (fuel : Nat) (s : WSState) (w : Int)
    (m : Monitor)
    (hf : find_wkspc_mon (update_monitor_info g s) w false = some m) :
    do_workspace_change g (fuel + 1) s w =
      (if m.name = (getCur (update_monitor_info g s)).name then
        match (getCur (update_monitor_info g s)).prev_wkspc with
        | none => some (update_monitor_info g s, [])
        | some p => do_workspace_change g fuel (update_monitor_info g s) p
      else some (update_monitor_info g s, [w])) := by
  rw [dwc_succ, hf]

lemma dwc_found_none (g : GatewayView) (fuel : Nat) (s : WSState) (w : Int)
    (hf : find_wkspc_mon (update_monitor_info g s) w false = none) :
    do_workspace_change g (fuel + 1) s w = some (update_monitor_info g s, [w]) := by
  rw [dwc_succ, hf]

lemma dwc_no_hit_on_active (g : GatewayView) (fuel : Nat) (s : WSState) (w : Int)
    (h : ∀ p ∈ (update_monitor_info g s).monitors,
      (p.2 : Monitor).curr_wkspc = some w →
      (p.2 : Monitor).name ≠ (getCur (update_monitor_info g s)).name) :
    do_workspace_change g (fuel + 1) s w = some (update_monitor_info g s, [w]) := by
  cases hf : find_wkspc_mon (update_monitor_info g s) w false with
  | none => exact dwc_found_none g fuel s w hf
  | some m =>
    obtain ⟨hcurr, k, hmem⟩ := find_wkspc_mon_some hf
    rw [dwc_found_branch g fuel s w m hf, if_neg (h (k, m) hmem hcurr)]

/-- Length of the previous-workspace chain hanging off a monitor record:
the `prev_wkspc` slot holds at most one link. -/
def prevChainLen (m : Monitor) : Nat :=
  match m.prev_wkspc with
  | none => 0
  | some _ => 1

/-- Claim C2. For every well-formed tracker state (valid reference,
unique keys, history invariant — the acyclicity of the previous-chain)
and consistent gateway view, and for every target, the recursive toggle
terminates within `chain + 1` calls, where `chain` is the length of the
active monitor's previous-workspace chain after the step-1 resync (at
most one link, so at most two calls ever): running
`do_workspace_change` with that much fuel returns a result instead of
exhausting the stack bound. -/
theorem c2_toggle_terminates (g : GatewayView) (s : WSState)
    (hwfs : WFS g s) (hgok : GOK g) (t : Int) :
    ∃ out, do_workspace_change g
      (prevChainLen (getCur (update_monitor_info g s)) + 1) s t = some out := by
  obtain ⟨hwfs1, hcurr1, hname1, hB2⟩ := update_monitor_info_props g s hwfs hgok
  cases hp : (getCur (update_monitor_info g s)).prev_wkspc with
  | none =>
    rw [show prevChainLen (getCur (update_monitor_info g s)) = 0 from by
      unfold prevChainLen; rw [hp]]
    cases hf : find_wkspc_mon (update_monitor_info g s) t false with
    | none => exact ⟨_, dwc_found_none g 0 s t hf⟩
    | some m =>
      rw [dwc_found_branch g 0 s t m hf]
      by_cases hnm : m.name = (getCur (update_monitor_info g s)).name
      · rw [if_pos hnm, hp]
        exact ⟨_, rfl⟩
      · rw [if_neg hnm]
        exact ⟨_, rfl⟩
  | some p =>
    rw [show prevChainLen (getCur (update_monitor_info g s)) = 1 from by
      unfold prevChainLen; rw [hp]]
    cases hf : find_wkspc_mon (update_monitor_info g s) t false with
    | none => exact ⟨_, dwc_found_none g 1 s t hf⟩
    | some m =>
      rw [dwc_found_branch g 1 s t m hf]
      by_cases hnm : m.name = (getCur (update_monitor_info g s)).name
      · rw [if_pos hnm, hp]
        have hpne : p ≠ g.activeWkspc := by
          have hMinv : MonInv (getCur (update_monitor_info g s)) := hwfs1.2.2.1.2
          rcases hMinv with hn | hne
          · rw [hn] at hp
            exact absurd hp (by simp)
          · rw [hcurr1, hp] at hne
            intro he
            exact hne (by rw [he])
        obtain ⟨hwfs2, hcurr2, hname2, hB2x⟩ :=
          update_monitor_info_props g (update_monitor_info g s) hwfs1 hgok
        refine ⟨_, dwc_no_hit_on_active g 0 (update_monitor_info g s) p ?_⟩
        intro q hq hqcurr hqname
        rw [hname2] at hqname
        have hqa := hB2x q hq hqname
        rw [hqcurr] at hqa
        exact hpne (Option.some.inj hqa)
      · rw [if_neg hnm]
        exact ⟨_, rfl⟩

/-- Witness for claim C2: one monitor `DP-1` with current workspace 1 and
previous 2, gateway agreeing; toggling to 1 terminates within
chain + 1 = 2 calls. -/
theorem c2_toggle_terminates_witness :
    ∃ out, do_workspace_change ⟨[⟨"DP-1", 0, 1⟩], "DP-1", 0, 1⟩
      (prevChainLen (getCur (update_monitor_info ⟨[⟨"DP-1", 0, 1⟩], "DP-1", 0, 1⟩
        ⟨[("DP-1", ⟨"DP-1", 0, some 1, some 2⟩)], CurRef.table "DP-1"⟩)) + 1)
      ⟨[("DP-1", ⟨"DP-1", 0, some 1, some 2⟩)], CurRef.table "DP-1"⟩ 1 = some out :=
  c2_toggle_terminates ⟨[⟨"DP-1", 0, 1⟩], "DP-1", 0, 1⟩
    ⟨[("DP-1", ⟨"DP-1", 0, some 1, some 2⟩)], CurRef.table "DP-1"⟩
    (by decide) (by decide) 1

/-- Claim C4. One unfolding of the toggle after the step-1 resync: if
some refreshed monitor's current workspace equals the target and every
such monitor is the active one, then with no previous workspace the call
stops issuing no focus command, and with a previous workspace `q` it
retargets to `q` and recurses from the resynced state; otherwise (no
monitor holds the target, or a holder is not the active monitor) it
issues exactly one focus-request command for the target and stops. -/
theorem c4_toggle_step_cases (g : GatewayView) (s : WSState) (fuel : Nat) (t : Int) :
    ((∃ p ∈ (update_monitor_info g s).monitors,
        (p.2 : Monitor).curr_wkspc = some t) →
      (∀ p ∈ (update_monitor_info g s).monitors,
        (p.2 : Monitor).curr_wkspc = some t →
        (p.2 : Monitor).name = (getCur (update_monitor_info g s)).name) →
      (((getCur (update_monitor_info g s)).prev_wkspc = none →
        do_workspace_change g (fuel + 1) s t = some (update_monitor_info g s, [])) ∧
      (∀ q, (getCur (update_monitor_info g s)).prev_wkspc = some q →
        do_workspace_change g (fuel + 1) s t =
          do_workspace_change g fuel (update_monitor_info g s) q))) ∧
    ((∀ p ∈ (update_monitor_info g s).monitors,
        (p.2 : Monitor).curr_wkspc = some t →
        (p.2 : Monitor).name ≠ (getCur (update_monitor_info g s)).name) →
      do_workspace_change g (fuel + 1) s t = some (update_monitor_info g s, [t])) := by
  constructor
  · intro hex hall
    obtain ⟨m, hf⟩ := find_wkspc_mon_isSome hex
    obtain ⟨hcurr, k, hmem⟩ := find_wkspc_mon_some hf
    have hnm : m.name = (getCur (update_monitor_info g s)).name :=
      hall (k, m) hmem hcurr
    constructor
    · intro hprev
      rw [dwc_found_branch g fuel s t m hf, if_pos hnm, hprev]
    · intro q hprev
      rw [dwc_found_branch g fuel s t m hf, if_pos hnm, hprev]
  · intro hnone
    exact dwc_no_hit_on_active g fuel s t hnone

/-- Witness for claim C4, realising the spec scenario `DP-1{curr=1,
prev=2}`, toggle target 1: the first call retargets to the previous
workspace 2 and recurses; the recursive call finds no monitor on 2 and
issues exactly one focus command for 2. -/
theorem c4_toggle_step_cases_witness :
    do_workspace_change ⟨[⟨"DP-1", 0, 1⟩], "DP-1", 0, 1⟩ 2
        ⟨[("DP-1", ⟨"DP-1", 0, some 1, some 2⟩)], CurRef.table "DP-1"⟩ 1 =
      do_workspace_change ⟨[⟨"DP-1", 0, 1⟩], "DP-1", 0, 1⟩ 1
        (update_monitor_info ⟨[⟨"DP-1", 0, 1⟩], "DP-1", 0, 1⟩
          ⟨[("DP-1", ⟨"DP-1", 0, some 1, some 2⟩)], CurRef.table "DP-1"⟩) 2 ∧
    do_workspace_change ⟨[⟨"DP-1", 0, 1⟩], "DP-1", 0, 1⟩ 1
        (update_monitor_info ⟨[⟨"DP-1", 0, 1⟩], "DP-1", 0, 1⟩
          ⟨[("DP-1", ⟨"DP-1", 0, some 1, some 2⟩)], CurRef.table "DP-1"⟩) 2 =
      some (update_monitor_info ⟨[⟨"DP-1", 0, 1⟩], "DP-1", 0, 1⟩
        (update_monitor_info ⟨[⟨"DP-1", 0, 1⟩], "DP-1", 0, 1⟩
          ⟨[("DP-1", ⟨"DP-1", 0, some 1, some 2⟩)], CurRef.table "DP-1"⟩), [2]) :=
  ⟨((c4_toggle_step_cases ⟨[⟨"DP-1", 0, 1⟩], "DP-1", 0, 1⟩
      ⟨[("DP-1", ⟨"DP-1", 0, some 1, some 2⟩)], CurRef.table "DP-1"⟩ 1 1).1
      (by decide) (by decide)).2 2 (by decide),
   (c4_toggle_step_cases ⟨[⟨"DP-1", 0, 1⟩], "DP-1", 0, 1⟩
      (update_monitor_info ⟨[⟨"DP-1", 0, 1⟩], "DP-1", 0, 1⟩
        ⟨[("DP-1", ⟨"DP-1", 0, some 1, some 2⟩)], CurRef.table "DP-1"⟩) 0 2).2
      (by decide)⟩
